import Mathlib

/-!
# xtr: dual-stack traceroute (`xtr.go`)

A shallow embedding of `xtr.go` and the properties of its hop prober
(`icmpPing`), route walker (`runRoute`) and correlator (`main`).

Conventions of the embedding

* The ICMP socket, the wall clock and the inbound packets are an explicit
  `World` value threaded through every function that touches the socket.
* A Go `error` is a `String` inside an `Option` (`none` is `nil`).
* A `net.IP` is its byte slice (`[]` is the nil address).
* A channel of strings is the list of strings sent on it, oldest first.
* A `ReadFrom` that never returns (no packet left in the world) is the
  result `none` of the prober and the exit `Exit.blocked` of the walker.
* Go `int` loop counters are natural numbers; `maxHops` is far below the
  64-bit range where `hops++` could wrap.
-/

namespace Xtr

/-! ## Constants and plain data (lines 15-25) -/

/-- Go `error` values are represented by their message. -/
abbrev Error := String

/-- Byte slice of a `net.IP`; the empty list is the nil address. -/
abbrev IP := List Nat

def IcmpReplySuccess : Int := 0
def IcmpReplyTimeout : Int := 1
def RouteUnknown : String := "*"
def RouteEnd : String := "END"

/-- The `Routes` struct of line 22. -/
structure Routes where
  ipv4 : String
  ipv6 : String
deriving DecidableEq, Repr

/-- An `icmp.Type` value: the interface holds either an `ipv4.ICMPType` or an
`ipv6.ICMPType`, each a number; two values are equal when both the dynamic
type and the number agree. -/
inductive IcmpType where
  | v4 (n : Nat)
  | v6 (n : Nat)
deriving DecidableEq, Repr

namespace ipv4
def ICMPTypeEchoReply : IcmpType := .v4 0
def ICMPTypeEcho : IcmpType := .v4 8
def ICMPTypeTimeExceeded : IcmpType := .v4 11
end ipv4

namespace ipv6
def ICMPTypeTimeExceeded : IcmpType := .v6 3
def ICMPTypeEchoRequest : IcmpType := .v6 128
def ICMPTypeEchoReply : IcmpType := .v6 129
end ipv6

/-! ## The `net.IP` methods used by the program (Go standard library) -/

/-- The 12-byte prefix of an IPv4-mapped IPv6 address (`v4InV6Prefix`). -/
def v4InV6Prefix : List Nat := [0, 0, 0, 0, 0, 0, 0, 0, 0, 0, 255, 255]

/-- Go `IP.To4`: a 4-byte address is returned as is, a 16-byte IPv4-mapped
address gives its last four bytes, anything else gives nil (`none`). -/
def IP.To4 (ip : IP) : Option IP :=
  if ip.length = 4 then some ip
  else if ip.length = 16 ∧ ip.take 12 = v4InV6Prefix then some (ip.drop 12)
  else none

/-- Go `IP.To16`: a 4-byte address is widened to its IPv4-mapped form, a
16-byte address is returned as is, anything else gives nil (`none`). -/
def IP.To16 (ip : IP) : Option IP :=
  if ip.length = 4 then some (v4InV6Prefix ++ ip)
  else if ip.length = 16 then some ip
  else none

/-- Go `IP.Equal`: equal byte slices, or a 4-byte address against its 16-byte
IPv4-mapped form. -/
def IP.Equal (ip x : IP) : Bool :=
  if ip.length = x.length then decide (ip = x)
  else if ip.length = 4 ∧ x.length = 16 then
    decide (x.take 12 = v4InV6Prefix) && decide (ip = x.drop 12)
  else if ip.length = 16 ∧ x.length = 4 then
    decide (ip.take 12 = v4InV6Prefix) && decide (ip.drop 12 = x)
  else false

/-! ## The socket, the clock and the inbound packets -/

/-- One inbound datagram as `ReadFrom` hands it over: the address and the
zone of the sender (the `*net.UDPAddr` returned as `peer`), the ICMP type
byte, and the error `icmp.ParseMessage` reports for the bytes (`none` when
they parse). -/
structure Datagram where
  sender : IP
  zone : String
  typ : Nat
  parseErr : Option Error
deriving DecidableEq, Repr

/-- The value of `net.ParseIP(host)` with `host` split off `peer.String()`
(lines 83-84 and 86-87). `peer.String()` renders the sender as `ip:port`,
with `%zone` behind the address when the zone is not empty; `ParseIP` gives
the 16-byte form of a valid address and nil for anything else, a host with
a zone included. -/
def peerIP (d : Datagram) : IP :=
  if d.zone = "" then (IP.To16 d.sender).getD [] else []

/-- Result of one `socket.ReadFrom`. -/
inductive ReadResult where
  | error (e : Error)
  | ok (d : Datagram)
deriving DecidableEq, Repr

/-- What the program did to its socket, in order. -/
inductive SockOp where
  /-- A call of `SetTTL` (`v4 = true`) or `SetHopLimit` with this value. -/
  | setHops (v4 : Bool) (hops : Nat)
  /-- An Echo message of this type written to `dst`, leaving the host with
  the hop-limit the socket had at that moment. -/
  | writeTo (icmpType : IcmpType) (dst : IP) (hopLimit : Nat)
deriving DecidableEq, Repr

/-- Hop-limit an operation carries. -/
def SockOp.hopLimit : SockOp → Nat
  | .setHops _ h => h
  | .writeTo _ _ h => h

/-- Environment of one walker: answers the socket and the clock will give,
and the record of what was done to the socket.

* `ttlErrs`: results of the coming `SetTTL`/`SetHopLimit` calls (`none` is
  success; success once the list is used up);
* `marshalErr`: result of `icmp.Message.Marshal` for a message type;
* `writeErrs`: results of the coming `WriteTo` calls, same convention;
* `clock`, `ticks`: the `n`-th call of `time.Now()` returns `clock n`
  (nanoseconds); `ticks` counts the calls made so far;
* `reads`: results of the coming `ReadFrom` calls; when none is left the
  next `ReadFrom` never returns;
* `ttl`: hop-limit currently set on the socket;
* `log`: operations performed so far. -/
structure World where
  ttlErrs : List (Option Error)
  marshalErr : IcmpType → Option Error
  writeErrs : List (Option Error)
  clock : Nat → Int
  ticks : Nat
  reads : List ReadResult
  ttl : Nat
  log : List SockOp

/-- The call `time.Now()`. -/
def timeNow (w : World) : Int × World :=
  (w.clock w.ticks, { w with ticks := w.ticks + 1 })

/-! ## `sendIcmpEcho` (lines 27-53) -/

def sendIcmpEcho (icmpType : IcmpType) (dst : IP) (hops : Nat) (w : World) :
    Option Error × World :=
  -- SetTTL for ipv4.ICMPTypeEcho, SetHopLimit otherwise
  let op := SockOp.setHops (decide (icmpType = ipv4.ICMPTypeEcho)) hops
  match w.ttlErrs.head?.join with
  | some err => (some err, { w with ttlErrs := w.ttlErrs.tail, log := w.log ++ [op] })
  | none =>
    let w1 := { w with ttlErrs := w.ttlErrs.tail, ttl := hops, log := w.log ++ [op] }
    match w1.marshalErr icmpType with
    | some err => (some err, w1)
    | none =>
      match w1.writeErrs.head?.join with
      | some err => (some err, { w1 with writeErrs := w1.writeErrs.tail })
      | none =>
        (none, { w1 with writeErrs := w1.writeErrs.tail,
                         log := w1.log ++ [SockOp.writeTo icmpType dst w1.ttl] })

/-! ## `icmpPing` (lines 55-95) -/

/-- The four values `icmpPing` returns: `(peer, resp, ret, err)`. -/
structure PingResult where
  peer : IP
  resp : Option IcmpType
  ret : Int
  err : Option Error
deriving DecidableEq, Repr

/-- Type of the message `icmp.ParseMessage(1, _)` (IPv4 socket) or
`icmp.ParseMessage(58, _)` (IPv6 socket) returns for a type byte. -/
def parsedType (icmpType : IcmpType) (typ : Nat) : IcmpType :=
  if icmpType = ipv4.ICMPTypeEcho then .v4 typ else .v6 typ

/-- The two accepting cases of the `switch rm.Type` of lines 81-91. -/
def acceptedType (t : IcmpType) : Bool :=
  decide (t = ipv4.ICMPTypeEchoReply ∨ t = ipv6.ICMPTypeEchoReply) ||
  decide (t = ipv4.ICMPTypeTimeExceeded ∨ t = ipv6.ICMPTypeTimeExceeded)

/-- The inner `for { ... }` of lines 64-92, one iteration per pending read.
`endT` is the deadline `end`. The loop has no `break`: it only leaves by
`return`, or never when the world has no further packet. -/
def readLoop (icmpType : IcmpType) (endT : Int) :
    List ReadResult → World → Option PingResult × World
  | [], w =>
    let (now, w1) := timeNow w
    if now > endT then (some ⟨[], none, IcmpReplyTimeout, none⟩, { w1 with reads := [] })
    else (none, { w1 with reads := [] })
  | r :: rest, w =>
    let (now, w1) := timeNow w
    if now > endT then (some ⟨[], none, IcmpReplyTimeout, none⟩, { w1 with reads := r :: rest })
    else
      match r with
      | .error err => (some ⟨[], none, -1, some err⟩, { w1 with reads := rest })
      | .ok d =>
        match d.parseErr with
        | some err => (some ⟨[], none, -1, some err⟩, { w1 with reads := rest })
        | none =>
          let rm := parsedType icmpType d.typ
          if acceptedType rm then
            (some ⟨peerIP d, some rm, IcmpReplySuccess, none⟩, { w1 with reads := rest })
          else readLoop icmpType endT rest w1

/-- The function `icmpPing`. The body of the attempt loop always returns (or
never finishes), so `attempt++` is never reached; `none` stands for a call
that never returns. -/
def icmpPing (icmpType : IcmpType) (dst : IP) (hops : Nat) (tries : Int) (timeout : Int)
    (w : World) : Option PingResult × World :=
  if 0 < tries then
    match sendIcmpEcho icmpType dst hops w with
    | (some err, w1) => (some ⟨[], none, -1, some err⟩, w1)
    | (none, w1) =>
      let (now, w2) := timeNow w1
      readLoop icmpType (now + timeout) w2.reads w2
  else (some ⟨[], none, IcmpReplyTimeout, none⟩, w)

/-! ## `runRoute` (lines 97-126) -/

/-- How a walk ends: `return err`, `log.Fatal(resp)`, or never. -/
inductive Exit where
  | returned (err : Option Error)
  | fatal (resp : Option IcmpType)
  | blocked
deriving DecidableEq, Repr

/-- State a walk leaves behind: the strings sent on `routes`, the world, and
the way the function ended. -/
structure Walk where
  routes : List String
  world : World
  exit : Exit

/-- The four cases of the `switch resp` of lines 110-117. -/
def routeResp (resp : Option IcmpType) : Bool :=
  decide (resp = some ipv4.ICMPTypeEchoReply) || decide (resp = some ipv4.ICMPTypeTimeExceeded) ||
  decide (resp = some ipv6.ICMPTypeEchoReply) || decide (resp = some ipv6.ICMPTypeTimeExceeded)

/-- The `for hops := 1; hops <= maxHops; hops++` loop of `runRoute`, over the
hop values still to visit. `str` is `net.IP.String`, `routes` the strings
sent so far. -/
def runRouteLoop (str : IP → String) (icmpType : IcmpType) (dst : IP) (maxHops : Nat)
    (attempts : Int) (timeout : Int) : List Nat → World → List String → Walk
  | [], w, routes =>
    ⟨routes ++ [RouteEnd], w, .returned (some ("exceeded max hops: " ++ toString maxHops))⟩
  | hops :: rest, w, routes =>
    match icmpPing icmpType dst hops attempts timeout w with
    | (none, w1) => ⟨routes, w1, .blocked⟩
    | (some r, w1) =>
      match r.err with
      | some err => ⟨routes, w1, .returned (some err)⟩
      | none =>
        if r.ret = 1 then
          runRouteLoop str icmpType dst maxHops attempts timeout rest w1 (routes ++ [RouteUnknown])
        else if routeResp r.resp then
          if IP.Equal dst r.peer then
            ⟨routes ++ [str r.peer] ++ [RouteEnd], w1, .returned none⟩
          else
            runRouteLoop str icmpType dst maxHops attempts timeout rest w1 (routes ++ [str r.peer])
        else ⟨routes, w1, .fatal r.resp⟩

/-- The function `runRoute`, started on an empty channel. -/
def runRoute (str : IP → String) (icmpType : IcmpType) (dst : IP) (maxHops : Nat)
    (attempts : Int) (timeout : Int) (w : World) : Walk :=
  runRouteLoop str icmpType dst maxHops attempts timeout (List.range' 1 maxHops) w []

/-! ## `main`: choice of the two destinations (lines 138-150) -/

/-- The `for _, addr := range addrs` loop of lines 140-150 over the addresses
still to visit; `none` is a nil destination. -/
def mainDstLoop : List IP → Option IP → Option IP → Option IP × Option IP
  | [], dst4, dst6 => (dst4, dst6)
  | addr :: rest, dst4, dst6 =>
    let dst4 := if dst4 = none ∧ IP.To4 addr ≠ none then some addr else dst4
    let dst6 := if dst6 = none ∧ IP.To16 addr ≠ none then some addr else dst6
    if dst4 ≠ none ∧ dst6 ≠ none then (dst4, dst6)
    else mainDstLoop rest dst4 dst6

/-- The pair `(dst4, dst6)` that `main` computes from the resolved addresses. -/
def mainDst (addrs : List IP) : Option IP × Option IP :=
  mainDstLoop addrs none none

/-! ## `main`: the correlation table and the two drain loops (lines 177-249) -/

/-- The map `routes` of line 177, as its entries in insertion order. -/
abbrev Table := List (String × Routes)

/-- The read `routes[host]` with its `exists` flag. -/
def Table.get : Table → String → Option Routes
  | [], _ => none
  | (k, v) :: t, host => if k = host then some v else Table.get t host

/-- The assignment `routes[host] = route`. -/
def Table.set : Table → String → Routes → Table
  | [], host, route => [(host, route)]
  | (k, v) :: t, host, route =>
    if k = host then (host, route) :: t else (k, v) :: Table.set t host route

/-- What `main` holds while it drains the channels: the map `routes`, the
counter `shared`, the lines printed so far, and whether it is stuck on a
channel receive that will never return. -/
structure MainState where
  routes : Table
  shared : Nat
  out : List String
  blocked : Bool
deriving DecidableEq, Repr

/-- The format `%2d`. -/
def pad2 (n : Nat) : String :=
  if n < 10 then " " ++ toString n else toString n

/-- The line printed for a hop once its hostname is known (lines 201-205). -/
def hopLine (hops : Nat) (hostname ip : String) : String :=
  if hostname ≠ "" then pad2 hops ++ ": " ++ hostname ++ " (" ++ ip ++ ")"
  else pad2 hops ++ ": " ++ ip

/-- The `for _, host := range hosts` loop of lines 195-200. -/
def hostLoop4 (ip : String) : List String → String → Table → String × Table
  | [], hostname, routes => (hostname, routes)
  | host :: rest, hostname, routes =>
    hostLoop4 ip rest (if hostname = "" then host else hostname)
      (Table.set routes host ⟨ip, ""⟩)

/-- The loop of lines 180-206 over the hop numbers still to visit; `r4` is
what the channel will deliver and `lookupAddr hops ip` the answer
`net.LookupAddr(ip)` gives when it is asked at hop `hops`. -/
def drain4 (lookupAddr : Nat → String → Except Error (List String)) :
    List Nat → List String → MainState → MainState
  | [], _, st => st
  | _ :: _, [], st => { st with blocked := true }
  | hops :: rest, ip :: r4, st =>
    if ip = RouteEnd then st
    else if ip = RouteUnknown then
      drain4 lookupAddr rest r4 { st with out := st.out ++ [pad2 hops ++ ": " ++ ip] }
    else
      match lookupAddr hops ip with
      | .error _ =>
        drain4 lookupAddr rest r4 { st with out := st.out ++ [pad2 hops ++ ": " ++ ip] }
      | .ok hosts =>
        let hr := hostLoop4 ip hosts "" st.routes
        drain4 lookupAddr rest r4
          { st with routes := hr.2, out := st.out ++ [hopLine hops hr.1 ip] }

/-- The `for _, host := range hosts` loop of lines 224-234. -/
def hostLoop6 (ip : String) : List String → String → Table → Nat → String × Table × Nat
  | [], hostname, routes, shared => (hostname, routes, shared)
  | host :: rest, hostname, routes, shared =>
    let hostname := if hostname = "" then host else hostname
    match Table.get routes host with
    | some route =>
      hostLoop6 ip rest hostname (Table.set routes host { route with ipv6 := ip }) (shared + 1)
    | none => hostLoop6 ip rest hostname routes shared

/-- The loop of lines 209-240 over the hop numbers still to visit. -/
def drain6 (lookupAddr : Nat → String → Except Error (List String)) :
    List Nat → List String → MainState → MainState
  | [], _, st => st
  | _ :: _, [], st => { st with blocked := true }
  | hops :: rest, ip :: r6, st =>
    if ip = RouteEnd then st
    else if ip = RouteUnknown then
      drain6 lookupAddr rest r6 { st with out := st.out ++ [pad2 hops ++ ": " ++ ip] }
    else
      match lookupAddr hops ip with
      | .error _ =>
        drain6 lookupAddr rest r6 { st with out := st.out ++ [pad2 hops ++ ": " ++ ip] }
      | .ok hosts =>
        let hr := hostLoop6 ip hosts "" st.routes st.shared
        drain6 lookupAddr rest r6
          { st with routes := hr.2.1, shared := hr.2.2, out := st.out ++ [hopLine hops hr.1 ip] }

/-- The test `route.ipv4 != "" && route.ipv6 != ""` of line 245. -/
def isComplete (route : Routes) : Bool :=
  decide (route.ipv4 ≠ "") && decide (route.ipv6 ≠ "")

/-- The entries the loop of lines 244-248 prints: those passing the test. -/
def completeEntries (t : Table) : Table := t.filter (fun e => isComplete e.2)

/-- The line of the final report for one entry (line 246). -/
def entryLine (e : String × Routes) : String :=
  e.1 ++ " (" ++ e.2.ipv4 ++ ") (" ++ e.2.ipv6 ++ ")"

/-- Lines 177-249 of `main`: both channels drained in turn, then the report.
`dst4` and `dst6` are the two destinations as `%v` prints them, `r4` and `r6`
what the two walkers send. Go ranges over a map in no fixed order; the
entries of the report are listed here in insertion order. -/
def mainCorrelate (lookup4 lookup6 : Nat → String → Except Error (List String))
    (maxHops : Nat) (dst4 dst6 : String) (r4 r6 : List String) : MainState :=
  let s1 := drain4 lookup4 (List.range' 1 maxHops) r4 ⟨[], 0, ["v4: " ++ dst4], false⟩
  if s1.blocked then s1
  else
    let s2 := drain6 lookup6 (List.range' 1 maxHops) r6
      { s1 with out := s1.out ++ ["", "v6: " ++ dst6] }
    if s2.blocked then s2
    else
      { s2 with out := s2.out ++ ["", "xtr: " ++ toString s2.shared] ++
          (if s2.shared > 0 then (completeEntries s2.routes).map entryLine else []) }

/-! ## Vocabulary for statements about the correlator -/

/-- The items `main` takes off a channel: at most `maxHops`, and none from the
first `RouteEnd` on. -/
def consumed (maxHops : Nat) (stream : List String) : List String :=
  (stream.take maxHops).takeWhile (fun ip => decide (ip ≠ RouteEnd))

/-- The hop `hops` with record `ip` responded and its reverse lookup
succeeded with `host` among the names returned. -/
def resolvesTo (lookupAddr : Nat → String → Except Error (List String))
    (host : String) (p : Nat × String) : Bool :=
  decide (p.2 ≠ RouteUnknown) &&
    (match lookupAddr p.1 p.2 with
     | .ok hosts => decide (host ∈ hosts)
     | .error _ => false)

/-- Address of the latest hop, among records numbered from `first`, whose
reverse lookup returned `host`. -/
def latestHop (lookupAddr : Nat → String → Except Error (List String)) (first : Nat)
    (recs : List String) (host : String) : Option String :=
  ((List.enumFrom first recs).reverse.find? (resolvesTo lookupAddr host)).map Prod.snd

/-- Hostnames matched against the table while a stream is drained, one item
per hostname occurrence in a lookup result that names a known host. -/
def sharedMatches (lookupAddr : Nat → String → Except Error (List String))
    (known : String → Bool) (first : Nat) (recs : List String) : List String :=
  (List.enumFrom first recs).flatMap (fun p =>
    if p.2 = RouteUnknown then []
    else
      match lookupAddr p.1 p.2 with
      | .ok hosts => hosts.filter known
      | .error _ => [])

/-! ## Vocabulary for statements about a walk -/

/-- Results of the successive `icmpPing` calls for the given hop-limits, each
call starting in the world the previous one left, together with the final
world. This is the per-hop outcome sequence a walk over these hops meets. -/
def probeOutcomes (icmpType : IcmpType) (dst : IP) (attempts : Int) (timeout : Int) :
    List Nat → World → List (Option PingResult) × World
  | [], w => ([], w)
  | hops :: rest, w =>
    let p := icmpPing icmpType dst hops attempts timeout w
    let q := probeOutcomes icmpType dst attempts timeout rest p.2
    (p.1 :: q.1, q.2)

/-- The string a non-failing probe result is reported with on the channel:
`"*"` for a timeout, the responder address otherwise. -/
def hopRecord (str : IP → String) (r : PingResult) : String :=
  if r.ret = IcmpReplyTimeout then RouteUnknown else str r.peer

/-- The probe timed out, or was answered by an address other than `dst`. -/
def passesOn (dst : IP) (r : PingResult) : Prop :=
  r.ret = IcmpReplyTimeout ∨ (r.ret = IcmpReplySuccess ∧ IP.Equal dst r.peer = false)

instance (dst : IP) (r : PingResult) : Decidable (passesOn dst r) := by
  unfold passesOn; infer_instance

/-! ## Sample worlds -/

/-- A quiet world: every socket call succeeds, the `n`-th clock reading is
`n`, and the packets in `reads` arrive in that order. -/
def worldWith (reads : List ReadResult) : World :=
  ⟨[], fun _ => none, [], fun n => (n : Int), 0, reads, 0, []⟩

/-- A plain rendering of an address for the samples: the bytes in decimal,
separated by dots, of its 4-byte form when it has one and of the address
itself otherwise. -/
def dotted (ip : IP) : String :=
  ".".intercalate (((IP.To4 ip).getD ip).map toString)

/-- Two packets: a Time Exceeded from a router, then an Echo Reply from
`10.0.0.3`. -/
def twoHopWorld : World :=
  worldWith [.ok ⟨[10, 0, 0, 1], "", 11, none⟩, .ok ⟨[10, 0, 0, 3], "", 0, none⟩]

/-- A socket whose first write succeeds and whose second write fails. -/
def secondWriteFailsWorld : World :=
  { worldWith [] with writeErrs := [none, some "sendto: network is unreachable"] }

/-- A socket whose first write already fails, as on a host without a route
for the address family. -/
def unreachableWorld : World :=
  { worldWith [] with writeErrs := [some "sendto: network is unreachable"] }

/-- A resolver that knows one router under both of its addresses and has no
name for anything else. -/
def coreLookup (_ : Nat) (ip : String) : Except Error (List String) :=
  if ip = "10.0.0.1" ∨ ip = "2001:db8::1" ∨ ip = "2001:db8::2" then .ok ["core.example"]
  else .error "no such host"

/-- A resolver that returns two names for every address. -/
def twoNameLookup (_ : Nat) (_ : String) : Except Error (List String) :=
  .ok ["a.example", "b.example"]

/-- A call of `sendIcmpEcho` leaves clock and inbound packets alone and adds
to the log one `setHops`, followed by one `writeTo` exactly when it returns
no error. -/
theorem sendIcmpEcho_effect (icmpType : IcmpType) (dst : IP) (hops : Nat) (w : World) :
    (sendIcmpEcho icmpType dst hops w).2.reads = w.reads ∧
    (sendIcmpEcho icmpType dst hops w).2.clock = w.clock ∧
    (sendIcmpEcho icmpType dst hops w).2.ticks = w.ticks ∧
    (((sendIcmpEcho icmpType dst hops w).1 = none ∧
        (sendIcmpEcho icmpType dst hops w).2.log =
          w.log ++ [SockOp.setHops (decide (icmpType = ipv4.ICMPTypeEcho)) hops,
                    SockOp.writeTo icmpType dst hops]) ∨
     ((sendIcmpEcho icmpType dst hops w).1 ≠ none ∧
        (sendIcmpEcho icmpType dst hops w).2.log =
          w.log ++ [SockOp.setHops (decide (icmpType = ipv4.ICMPTypeEcho)) hops])) := by
  unfold sendIcmpEcho
  cases h1 : w.ttlErrs.head?.join with
  | some e => simp
  | none =>
    simp only []
    cases h2 : w.marshalErr icmpType with
    | some e => simp
    | none =>
      simp only []
      cases h3 : w.writeErrs.head?.join with
      | some e => simp
      | none => simp

/-- The read loop never touches the socket log. -/
theorem readLoop_log (icmpType : IcmpType) (endT : Int) (rs : List ReadResult) (w : World) :
    (readLoop icmpType endT rs w).2.log = w.log := by
  induction rs generalizing w with
  | nil =>
    unfold readLoop
    simp only [timeNow]
    split <;> rfl
  | cons r rest ih =>
    unfold readLoop
    simp only [timeNow]
    split
    · rfl
    · cases r with
      | error e => rfl
      | ok d =>
        simp only []
        cases hp : d.parseErr with
        | some e => rfl
        | none =>
          simp only []
          split
          · rfl
          · rw [ih]

/-- Shape of what the read loop returns: the timeout tuple, an error tuple,
or a success carrying an accepted message type. -/
theorem readLoop_shape (icmpType : IcmpType) (endT : Int) (rs : List ReadResult) (w : World)
    (r : PingResult) (h : (readLoop icmpType endT rs w).1 = some r) :
    r = ⟨[], none, IcmpReplyTimeout, none⟩ ∨
    (∃ e, r = ⟨[], none, -1, some e⟩) ∨
    (∃ peer t, acceptedType t = true ∧ r = ⟨peer, some t, IcmpReplySuccess, none⟩) := by
  induction rs generalizing w with
  | nil =>
    unfold readLoop at h
    simp only [timeNow] at h
    split at h
    · left; simpa using h.symm
    · simp at h
  | cons x rest ih =>
    unfold readLoop at h
    simp only [timeNow] at h
    split at h
    · left; simpa using h.symm
    · cases x with
      | error e => right; left; exact ⟨e, by simpa using h.symm⟩
      | ok d =>
        simp only [] at h
        cases hp : d.parseErr with
        | some e => rw [hp] at h; right; left; exact ⟨e, by simpa using h.symm⟩
        | none =>
          rw [hp] at h
          simp only [] at h
          split at h
          · rename_i hacc
            right; right
            exact ⟨peerIP d, parsedType icmpType d.typ, hacc, by simpa using h.symm⟩
          · exact ih _ h

/-- Shape of what `icmpPing` returns. -/
theorem icmpPing_shape (icmpType : IcmpType) (dst : IP) (hops : Nat) (tries timeout : Int)
    (w : World) (r : PingResult) (h : (icmpPing icmpType dst hops tries timeout w).1 = some r) :
    r = ⟨[], none, IcmpReplyTimeout, none⟩ ∨
    (∃ e, r = ⟨[], none, -1, some e⟩) ∨
    (∃ peer t, acceptedType t = true ∧ r = ⟨peer, some t, IcmpReplySuccess, none⟩) := by
  unfold icmpPing at h
  split at h
  · split at h
    · right; left; exact ⟨_, by simpa using h.symm⟩
    · exact readLoop_shape _ _ _ _ _ h
  · left; simpa using h.symm

/-- Every type the prober accepts is one of the four the walker handles. -/
theorem routeResp_of_accepted (t : IcmpType) (h : acceptedType t = true) :
    routeResp (some t) = true := by
  simp only [acceptedType, Bool.or_eq_true, decide_eq_true_eq] at h
  simp only [routeResp, Bool.or_eq_true, decide_eq_true_eq, Option.some.injEq]
  tauto

/-- Log left by one `icmpPing` call with a positive attempt budget: one
`setHops`, then one `writeTo` exactly when the send did not fail. -/
theorem icmpPing_log (icmpType : IcmpType) (dst : IP) (hops : Nat) (tries timeout : Int)
    (w : World) (ht : 0 < tries) :
    ((sendIcmpEcho icmpType dst hops w).1 = none ∧
      (icmpPing icmpType dst hops tries timeout w).2.log =
        w.log ++ [SockOp.setHops (decide (icmpType = ipv4.ICMPTypeEcho)) hops,
                  SockOp.writeTo icmpType dst hops]) ∨
    ((∃ e, (sendIcmpEcho icmpType dst hops w).1 = some e ∧
        (icmpPing icmpType dst hops tries timeout w).1 = some ⟨[], none, -1, some e⟩) ∧
      (icmpPing icmpType dst hops tries timeout w).2.log =
        w.log ++ [SockOp.setHops (decide (icmpType = ipv4.ICMPTypeEcho)) hops]) := by
  have hs := sendIcmpEcho_effect icmpType dst hops w
  unfold icmpPing
  rw [if_pos ht]
  rcases hsend : sendIcmpEcho icmpType dst hops w with ⟨e, w1⟩
  rw [hsend] at hs
  cases e with
  | some e =>
    right
    rcases hs with ⟨-, -, -, hs | hs⟩
    · simp at hs
    · exact ⟨⟨e, rfl, rfl⟩, hs.2⟩
  | none =>
    left
    rcases hs with ⟨-, -, -, hs | hs⟩
    · refine ⟨rfl, ?_⟩
      simp only [timeNow]
      rw [readLoop_log]
      exact hs.2
    · simp at hs

/-- Whatever the attempt budget, the operations one `icmpPing` call adds to
the log all carry the hop-limit it was called with. -/
theorem icmpPing_log_hops (icmpType : IcmpType) (dst : IP) (hops : Nat) (tries timeout : Int)
    (w : World) :
    ∃ ops, (icmpPing icmpType dst hops tries timeout w).2.log = w.log ++ ops ∧
      ∀ op ∈ ops, op.hopLimit = hops := by
  by_cases ht : 0 < tries
  · rcases icmpPing_log icmpType dst hops tries timeout w ht with ⟨-, h⟩ | ⟨-, h⟩
    · exact ⟨_, h, by simp [SockOp.hopLimit]⟩
    · exact ⟨_, h, by simp [SockOp.hopLimit]⟩
  · refine ⟨[], ?_, by simp⟩
    unfold icmpPing
    rw [if_neg ht]
    simp

theorem probeOutcomes_append (icmpType : IcmpType) (dst : IP) (attempts timeout : Int)
    (a b : List Nat) (w : World) :
    probeOutcomes icmpType dst attempts timeout (a ++ b) w =
      ((probeOutcomes icmpType dst attempts timeout a w).1 ++
        (probeOutcomes icmpType dst attempts timeout b
          (probeOutcomes icmpType dst attempts timeout a w).2).1,
       (probeOutcomes icmpType dst attempts timeout b
          (probeOutcomes icmpType dst attempts timeout a w).2).2) := by
  induction a generalizing w with
  | nil => rfl
  | cons h a ih =>
    rw [List.cons_append]
    simp only [probeOutcomes]
    rw [ih]
    simp

/-- The probes of a walk only append to the socket log, and every operation
they add carries one of the hop-limits visited. -/
theorem probeOutcomes_log (icmpType : IcmpType) (dst : IP) (attempts timeout : Int)
    (hs : List Nat) (w : World) :
    ∃ ops, (probeOutcomes icmpType dst attempts timeout hs w).2.log = w.log ++ ops ∧
      ∀ op ∈ ops, op.hopLimit ∈ hs := by
  induction hs generalizing w with
  | nil => exact ⟨[], by simp [probeOutcomes], by simp⟩
  | cons h hs ih =>
    obtain ⟨ops1, h1, h1b⟩ := icmpPing_log_hops icmpType dst h attempts timeout w
    obtain ⟨ops2, h2, h2b⟩ := ih (icmpPing icmpType dst h attempts timeout w).2
    refine ⟨ops1 ++ ops2, ?_, ?_⟩
    · simp only [probeOutcomes]
      rw [h2, h1, List.append_assoc]
    · intro op hop
      rcases List.mem_append.1 hop with hm | hm
      · rw [h1b op hm]; exact List.mem_cons_self _ _
      · exact List.mem_cons_of_mem _ (h2b op hm)

/-- A probe result that is a timeout or comes from an address other than the
destination makes the walk emit its record and go on to the next hop. -/
theorem runRouteLoop_step (str : IP → String) (icmpType : IcmpType) (dst : IP) (maxHops : Nat)
    (attempts timeout : Int) (hops : Nat) (rest : List Nat) (w : World) (routes : List String)
    (r : PingResult) (hr : (icmpPing icmpType dst hops attempts timeout w).1 = some r)
    (hp : passesOn dst r) :
    runRouteLoop str icmpType dst maxHops attempts timeout (hops :: rest) w routes =
      runRouteLoop str icmpType dst maxHops attempts timeout rest
        (icmpPing icmpType dst hops attempts timeout w).2 (routes ++ [hopRecord str r]) := by
  have hshape := icmpPing_shape icmpType dst hops attempts timeout w r hr
  rw [runRouteLoop]
  rcases hping : icmpPing icmpType dst hops attempts timeout w with ⟨o, w1⟩
  rw [hping] at hr
  simp only [] at hr
  subst hr
  simp only []
  rcases hshape with h | ⟨e, h⟩ | ⟨peer, t, hacc, h⟩
  · subst h
    simp [IcmpReplyTimeout, hopRecord]
  · subst h
    simp [passesOn, IcmpReplyTimeout, IcmpReplySuccess] at hp
  · subst h
    have hne : IP.Equal dst peer = false := by
      simpa [passesOn, IcmpReplyTimeout, IcmpReplySuccess] using hp
    simp [IcmpReplySuccess, IcmpReplyTimeout, hopRecord, routeResp_of_accepted t hacc, hne]

/-- A walk whose first probes all pass on continues behind them with their
records on the channel. -/
theorem runRouteLoop_prefix (str : IP → String) (icmpType : IcmpType) (dst : IP) (maxHops : Nat)
    (attempts timeout : Int) (hs rest : List Nat) (w : World) (routes : List String)
    (outs : List PingResult)
    (hout : (probeOutcomes icmpType dst attempts timeout hs w).1 = outs.map some)
    (hpass : ∀ o ∈ outs, passesOn dst o) :
    runRouteLoop str icmpType dst maxHops attempts timeout (hs ++ rest) w routes =
      runRouteLoop str icmpType dst maxHops attempts timeout rest
        (probeOutcomes icmpType dst attempts timeout hs w).2
        (routes ++ outs.map (hopRecord str)) := by
  induction hs generalizing w routes outs with
  | nil =>
    cases outs with
    | nil => simp [probeOutcomes]
    | cons o outs => simp [probeOutcomes] at hout
  | cons h hs ih =>
    cases outs with
    | nil => simp [probeOutcomes] at hout
    | cons o outs =>
      simp only [probeOutcomes, List.map_cons, List.cons.injEq] at hout
      rw [List.cons_append,
        runRouteLoop_step str icmpType dst maxHops attempts timeout h (hs ++ rest) w routes o
          hout.1 (hpass o (List.mem_cons_self _ _)),
        ih _ _ outs hout.2 (fun x hx => hpass x (List.mem_cons_of_mem _ hx))]
      simp [probeOutcomes]

/-- Splitting the outcome sequence of hops `1..n+1` into the first `n` probes
and the last one. -/
theorem probeOutcomes_last (icmpType : IcmpType) (dst : IP) (attempts timeout : Int)
    (n : Nat) (w : World) (outs : List PingResult) (r : PingResult)
    (hout : (probeOutcomes icmpType dst attempts timeout (List.range' 1 (n + 1)) w).1 =
      (outs ++ [r]).map some) :
    (probeOutcomes icmpType dst attempts timeout (List.range' 1 n) w).1 = outs.map some ∧
    (icmpPing icmpType dst (n + 1) attempts timeout
      (probeOutcomes icmpType dst attempts timeout (List.range' 1 n) w).2).1 = some r ∧
    (probeOutcomes icmpType dst attempts timeout (List.range' 1 (n + 1)) w).2 =
      (icmpPing icmpType dst (n + 1) attempts timeout
        (probeOutcomes icmpType dst attempts timeout (List.range' 1 n) w).2).2 ∧
    outs.length = n := by
  have hlen : ∀ (hs : List Nat) (w : World),
      (probeOutcomes icmpType dst attempts timeout hs w).1.length = hs.length := by
    intro hs
    induction hs with
    | nil => intro w; rfl
    | cons h hs ih => intro w; simp [probeOutcomes, ih]
  rw [List.range'_concat, probeOutcomes_append] at hout
  simp only [probeOutcomes, List.map_append, List.map_cons, List.map_nil, Nat.one_mul,
    Nat.add_comm 1 n] at hout
  have hsplit := List.append_inj' hout (by simp)
  refine ⟨hsplit.1, by simpa using hsplit.2, ?_, ?_⟩
  · rw [List.range'_concat, probeOutcomes_append]
    simp [probeOutcomes, Nat.add_comm 1 n]
  · have := hlen (List.range' 1 n) w
    rw [hsplit.1] at this
    simpa using this

/-- The hop list of a walk, cut at hop `n + 1`. -/
theorem range_split (n maxHops : Nat) (h : n + 1 ≤ maxHops) :
    List.range' 1 maxHops =
      List.range' 1 n ++ (n + 1) :: List.range' (n + 2) (maxHops - (n + 1)) := by
  have h1 : maxHops = (maxHops - (n + 1) + 1) + n := by omega
  conv_lhs => rw [h1]
  rw [← List.range'_append 1 n (maxHops - (n + 1) + 1) 1, List.range'_succ]
  simp [Nat.add_comm, Nat.add_left_comm]

/-- A probe answered by the destination ends the walk with its record and
the end marker. -/
theorem runRouteLoop_reach (str : IP → String) (icmpType : IcmpType) (dst : IP) (maxHops : Nat)
    (attempts timeout : Int) (hops : Nat) (rest : List Nat) (w : World) (routes : List String)
    (r : PingResult) (hr : (icmpPing icmpType dst hops attempts timeout w).1 = some r)
    (hret : r.ret = IcmpReplySuccess) (heq : IP.Equal dst r.peer = true) :
    runRouteLoop str icmpType dst maxHops attempts timeout (hops :: rest) w routes =
      ⟨routes ++ [str r.peer] ++ [RouteEnd],
        (icmpPing icmpType dst hops attempts timeout w).2, .returned none⟩ := by
  have hshape := icmpPing_shape icmpType dst hops attempts timeout w r hr
  rw [runRouteLoop]
  rcases hping : icmpPing icmpType dst hops attempts timeout w with ⟨o, w1⟩
  rw [hping] at hr
  simp only [] at hr
  subst hr
  simp only []
  rcases hshape with h | ⟨e, h⟩ | ⟨peer, t, hacc, h⟩
  · subst h
    simp [IcmpReplyTimeout, IcmpReplySuccess] at hret
  · subst h
    simp [IcmpReplySuccess] at hret
  · subst h
    simp only [] at heq
    simp [IcmpReplySuccess, routeResp_of_accepted t hacc, heq]

/-- A probe that fails ends the walk at once with that error. -/
theorem runRouteLoop_error (str : IP → String) (icmpType : IcmpType) (dst : IP) (maxHops : Nat)
    (attempts timeout : Int) (hops : Nat) (rest : List Nat) (w : World) (routes : List String)
    (r : PingResult) (e : Error)
    (hr : (icmpPing icmpType dst hops attempts timeout w).1 = some r) (herr : r.err = some e) :
    runRouteLoop str icmpType dst maxHops attempts timeout (hops :: rest) w routes =
      ⟨routes, (icmpPing icmpType dst hops attempts timeout w).2, .returned (some e)⟩ := by
  rw [runRouteLoop]
  rcases hping : icmpPing icmpType dst hops attempts timeout w with ⟨o, w1⟩
  rw [hping] at hr
  simp only [] at hr
  subst hr
  simp only [herr]

/-- C2: when hops `1..k-1` time out or are answered by other addresses and
hop `k <= maxHops` is answered by the destination, `runRoute` sends the `k`
hop records in order, then `RouteEnd`, returns no error, has probed exactly
hops `1..k`, and has used no hop-limit above `k` on its socket. -/
theorem runRoute_reaches_destination (str : IP → String) (icmpType : IcmpType) (dst : IP)
    (maxHops : Nat) (attempts timeout : Int) (w : World) (k : Nat)
    (outs : List PingResult) (r : PingResult)
    (hk : k ≤ maxHops)
    (hout : (probeOutcomes icmpType dst attempts timeout (List.range' 1 k) w).1 =
      (outs ++ [r]).map some)
    (hpass : ∀ o ∈ outs, passesOn dst o)
    (hdst : r.ret = IcmpReplySuccess ∧ IP.Equal dst r.peer = true) :
    (runRoute str icmpType dst maxHops attempts timeout w).routes =
      (outs ++ [r]).map (hopRecord str) ++ [RouteEnd] ∧
    (outs ++ [r]).length = k ∧
    (runRoute str icmpType dst maxHops attempts timeout w).exit = .returned none ∧
    (runRoute str icmpType dst maxHops attempts timeout w).world =
      (probeOutcomes icmpType dst attempts timeout (List.range' 1 k) w).2 ∧
    ∃ ops, (runRoute str icmpType dst maxHops attempts timeout w).world.log = w.log ++ ops ∧
      ∀ op ∈ ops, op.hopLimit ≤ k := by
  cases k with
  | zero => simp [probeOutcomes] at hout
  | succ n =>
    obtain ⟨h1, h2, h3, h4⟩ := probeOutcomes_last icmpType dst attempts timeout n w outs r hout
    have hrun : runRoute str icmpType dst maxHops attempts timeout w =
        ⟨outs.map (hopRecord str) ++ [str r.peer] ++ [RouteEnd],
          (probeOutcomes icmpType dst attempts timeout (List.range' 1 (n + 1)) w).2,
          .returned none⟩ := by
      unfold runRoute
      rw [range_split n maxHops hk,
        runRouteLoop_prefix str icmpType dst maxHops attempts timeout _ _ w [] outs h1 hpass,
        runRouteLoop_reach str icmpType dst maxHops attempts timeout _ _ _ _ r h2 hdst.1 hdst.2,
        h3]
      simp
    have hrec : hopRecord str r = str r.peer := by
      simp [hopRecord, hdst.1, IcmpReplySuccess, IcmpReplyTimeout]
    rw [hrun]
    refine ⟨by simp [hrec], by simp [h4], rfl, rfl, ?_⟩
    obtain ⟨ops, hl, hb⟩ :=
      probeOutcomes_log icmpType dst attempts timeout (List.range' 1 (n + 1)) w
    refine ⟨ops, hl, fun op hop => ?_⟩
    have := hb op hop
    rw [List.mem_range'_1] at this
    omega

/-- Witness for C2: a router answers hop 1, the destination `10.0.0.3`
answers hop 2 of at most 5. -/
theorem runRoute_reaches_destination_witness :
    (runRoute dotted ipv4.ICMPTypeEcho [10, 0, 0, 3] 5 3 100 twoHopWorld).routes =
      ["10.0.0.1", "10.0.0.3", "END"] ∧
    (runRoute dotted ipv4.ICMPTypeEcho [10, 0, 0, 3] 5 3 100 twoHopWorld).exit =
      .returned none :=
  have h := runRoute_reaches_destination dotted ipv4.ICMPTypeEcho [10, 0, 0, 3] 5 3 100
    twoHopWorld 2
    [⟨[0, 0, 0, 0, 0, 0, 0, 0, 0, 0, 255, 255, 10, 0, 0, 1],
      some ipv4.ICMPTypeTimeExceeded, IcmpReplySuccess, none⟩]
    ⟨[0, 0, 0, 0, 0, 0, 0, 0, 0, 0, 255, 255, 10, 0, 0, 3],
      some ipv4.ICMPTypeEchoReply, IcmpReplySuccess, none⟩
    (by decide) (by decide) (by decide) (by decide)
  ⟨h.1.trans (by decide), h.2.2.1⟩

/-- C3: when no probe of hops `1..maxHops` fails and none is answered by the
destination, every hop is probed, `runRoute` sends exactly `maxHops` hop
records, a timed-out hop being the record `"*"`, then `RouteEnd`, and
returns the error `exceeded max hops`. -/
theorem runRoute_exceeds_hop_budget (str : IP → String) (icmpType : IcmpType) (dst : IP)
    (maxHops : Nat) (attempts timeout : Int) (w : World) (outs : List PingResult)
    (hout : (probeOutcomes icmpType dst attempts timeout (List.range' 1 maxHops) w).1 =
      outs.map some)
    (hpass : ∀ o ∈ outs, passesOn dst o) :
    (runRoute str icmpType dst maxHops attempts timeout w).routes =
      outs.map (hopRecord str) ++ [RouteEnd] ∧
    outs.length = maxHops ∧
    (∀ o ∈ outs, o.ret = IcmpReplyTimeout → hopRecord str o = "*") ∧
    (runRoute str icmpType dst maxHops attempts timeout w).exit =
      .returned (some ("exceeded max hops: " ++ toString maxHops)) ∧
    (runRoute str icmpType dst maxHops attempts timeout w).world =
      (probeOutcomes icmpType dst attempts timeout (List.range' 1 maxHops) w).2 := by
  have hrun : runRoute str icmpType dst maxHops attempts timeout w =
      ⟨outs.map (hopRecord str) ++ [RouteEnd],
        (probeOutcomes icmpType dst attempts timeout (List.range' 1 maxHops) w).2,
        .returned (some ("exceeded max hops: " ++ toString maxHops))⟩ := by
    unfold runRoute
    have := runRouteLoop_prefix str icmpType dst maxHops attempts timeout
      (List.range' 1 maxHops) [] w [] outs hout hpass
    rw [List.append_nil] at this
    rw [this, runRouteLoop]
    simp
  have hlen : ∀ (hs : List Nat) (w : World),
      (probeOutcomes icmpType dst attempts timeout hs w).1.length = hs.length := by
    intro hs
    induction hs with
    | nil => intro w; rfl
    | cons h hs ih => intro w; simp [probeOutcomes, ih]
  rw [hrun]
  refine ⟨rfl, ?_, ?_, rfl, rfl⟩
  · have := hlen (List.range' 1 maxHops) w
    rw [hout] at this
    simpa using this
  · intro o _ ho
    simp [hopRecord, ho, RouteUnknown]

/-- Witness for C3: two hops allowed, no packet ever arrives and the deadline
has passed at the first look at the clock. -/
theorem runRoute_exceeds_hop_budget_witness :
    (runRoute dotted ipv4.ICMPTypeEcho [10, 0, 0, 3] 2 3 0 (worldWith [])).routes =
      ["*", "*", "END"] ∧
    (runRoute dotted ipv4.ICMPTypeEcho [10, 0, 0, 3] 2 3 0 (worldWith [])).exit =
      .returned (some ("exceeded max hops: " ++ toString 2)) :=
  have h := runRoute_exceeds_hop_budget dotted ipv4.ICMPTypeEcho [10, 0, 0, 3] 2 3 0
    (worldWith [])
    [PingResult.mk [] none IcmpReplyTimeout none, PingResult.mk [] none IcmpReplyTimeout none]
    (by decide) (by decide)
  ⟨h.1, h.2.2.2.1⟩

/-- C4: when hops `1..k-1` pass on and the probe of hop `k <= maxHops` fails
with error `e`, `runRoute` returns `e`, has sent exactly the records of hops
`1..k-1` and nothing else, has made no probe after the failing one, and has
used no hop-limit above `k` on its socket. -/
theorem runRoute_aborts_on_transport_error (str : IP → String) (icmpType : IcmpType) (dst : IP)
    (maxHops : Nat) (attempts timeout : Int) (w : World) (k : Nat)
    (outs : List PingResult) (r : PingResult) (e : Error)
    (hk : k ≤ maxHops)
    (hout : (probeOutcomes icmpType dst attempts timeout (List.range' 1 k) w).1 =
      (outs ++ [r]).map some)
    (hpass : ∀ o ∈ outs, passesOn dst o)
    (herr : r.err = some e) :
    (runRoute str icmpType dst maxHops attempts timeout w).exit = .returned (some e) ∧
    (runRoute str icmpType dst maxHops attempts timeout w).routes = outs.map (hopRecord str) ∧
    outs.length + 1 = k ∧
    (runRoute str icmpType dst maxHops attempts timeout w).world =
      (probeOutcomes icmpType dst attempts timeout (List.range' 1 k) w).2 ∧
    ∃ ops, (runRoute str icmpType dst maxHops attempts timeout w).world.log = w.log ++ ops ∧
      ∀ op ∈ ops, op.hopLimit ≤ k := by
  cases k with
  | zero => simp [probeOutcomes] at hout
  | succ n =>
    obtain ⟨h1, h2, h3, h4⟩ := probeOutcomes_last icmpType dst attempts timeout n w outs r hout
    have hrun : runRoute str icmpType dst maxHops attempts timeout w =
        ⟨outs.map (hopRecord str),
          (probeOutcomes icmpType dst attempts timeout (List.range' 1 (n + 1)) w).2,
          .returned (some e)⟩ := by
      unfold runRoute
      rw [range_split n maxHops hk,
        runRouteLoop_prefix str icmpType dst maxHops attempts timeout _ _ w [] outs h1 hpass,
        runRouteLoop_error str icmpType dst maxHops attempts timeout _ _ _ _ r e h2 herr,
        h3]
      simp
    rw [hrun]
    refine ⟨rfl, rfl, by simp [h4], rfl, ?_⟩
    obtain ⟨ops, hl, hb⟩ :=
      probeOutcomes_log icmpType dst attempts timeout (List.range' 1 (n + 1)) w
    refine ⟨ops, hl, fun op hop => ?_⟩
    have := hb op hop
    rw [List.mem_range'_1] at this
    omega

/-- Witness for C4: hop 1 times out, the write of hop 2 fails. -/
theorem runRoute_aborts_on_transport_error_witness :
    (runRoute dotted ipv4.ICMPTypeEcho [10, 0, 0, 3] 5 3 0 secondWriteFailsWorld).exit =
      .returned (some "sendto: network is unreachable") ∧
    (runRoute dotted ipv4.ICMPTypeEcho [10, 0, 0, 3] 5 3 0 secondWriteFailsWorld).routes =
      ["*"] :=
  have h := runRoute_aborts_on_transport_error dotted ipv4.ICMPTypeEcho [10, 0, 0, 3] 5 3 0
    secondWriteFailsWorld 2 [⟨[], none, IcmpReplyTimeout, none⟩]
    ⟨[], none, -1, some "sendto: network is unreachable"⟩ "sendto: network is unreachable"
    (by decide) (by decide) (by decide) rfl
  ⟨h.1, h.2.1⟩

/-- C1 (failing input): on a socket whose first write fails, `runRoute`
returns the error having sent nothing at all on the channel; the end marker
that the two other exits send is missing. -/
theorem runRoute_error_exit_sends_no_end_marker :
    (runRoute dotted ipv6.ICMPTypeEchoRequest
        [32, 1, 13, 184, 0, 0, 0, 0, 0, 0, 0, 0, 0, 0, 0, 1] 64 3 1000000000
        unreachableWorld).routes = [] ∧
    (runRoute dotted ipv6.ICMPTypeEchoRequest
        [32, 1, 13, 184, 0, 0, 0, 0, 0, 0, 0, 0, 0, 0, 0, 1] 64 3 1000000000
        unreachableWorld).exit = .returned (some "sendto: network is unreachable") ∧
    (runRoute dotted ipv6.ICMPTypeEchoRequest
        [32, 1, 13, 184, 0, 0, 0, 0, 0, 0, 0, 0, 0, 0, 0, 1] 64 3 1000000000
        unreachableWorld).routes.count RouteEnd = 0 := by
  decide

/-! ## Facts about the destination choice -/

/-- State of the two destinations after the loop, from the state before it:
a destination already set stays, an unset one takes the first address that
passes its test. -/
theorem mainDstLoop_eq (addrs : List IP) (dst4 dst6 : Option IP) :
    mainDstLoop addrs dst4 dst6 =
      (dst4.or (addrs.find? (fun a => (IP.To4 a).isSome)),
       dst6.or (addrs.find? (fun a => (IP.To16 a).isSome))) := by
  induction addrs generalizing dst4 dst6 with
  | nil => cases dst4 <;> cases dst6 <;> simp [mainDstLoop]
  | cons a rest ih =>
    rw [mainDstLoop]
    simp only [ih, List.find?_cons]
    cases dst4 <;> cases dst6 <;> cases h4 : IP.To4 a <;> cases h6 : IP.To16 a <;> simp

/-- What `main` computes: `dst4` is the first address with a non-nil `To4`,
`dst6` the first address with a non-nil `To16`. -/
theorem mainDst_eq_find (addrs : List IP) :
    mainDst addrs =
      (addrs.find? (fun a => (IP.To4 a).isSome), addrs.find? (fun a => (IP.To16 a).isSome)) := by
  unfold mainDst
  rw [mainDstLoop_eq]
  simp

/-- C10 (failing input): for a host that resolves to the IPv4 address
`93.184.216.34` first, alone or followed by an IPv6 address, `main` takes
that IPv4 address as `dst6` as well, because `To16` is non-nil for it; the
same happens when the resolver hands the address over in its 16-byte
IPv4-mapped form. -/
theorem mainDst_ipv4_address_becomes_dst6 :
    mainDst [[93, 184, 216, 34]] = (some [93, 184, 216, 34], some [93, 184, 216, 34]) ∧
    mainDst [[93, 184, 216, 34], [38, 6, 40, 0, 2, 32, 0, 1, 2, 72, 24, 147, 37, 200, 25, 70]] =
      (some [93, 184, 216, 34], some [93, 184, 216, 34]) ∧
    IP.To4 [93, 184, 216, 34] = some [93, 184, 216, 34] ∧
    IP.To16 [93, 184, 216, 34] ≠ none ∧
    mainDst [[0, 0, 0, 0, 0, 0, 0, 0, 0, 0, 255, 255, 93, 184, 216, 34]] =
      (some [0, 0, 0, 0, 0, 0, 0, 0, 0, 0, 255, 255, 93, 184, 216, 34],
       some [0, 0, 0, 0, 0, 0, 0, 0, 0, 0, 255, 255, 93, 184, 216, 34]) ∧
    IP.To4 [0, 0, 0, 0, 0, 0, 0, 0, 0, 0, 255, 255, 93, 184, 216, 34] =
      some [93, 184, 216, 34] := by
  decide

/-! ## Facts about the correlation table -/

theorem Table.get_set (t : Table) (k : String) (v : Routes) (host : String) :
    Table.get (Table.set t k v) host = if k = host then some v else Table.get t host := by
  induction t with
  | nil => simp [Table.get, Table.set]
  | cons e t ih =>
    obtain ⟨a, b⟩ := e
    by_cases hak : a = k
    · subst hak
      by_cases hah : a = host <;> simp [Table.get, Table.set, hah]
    · by_cases hah : a = host
      · subst hah
        have : ¬ k = a := fun h => hak h.symm
        simp [Table.get, Table.set, hak, this]
      · simp [Table.get, Table.set, hak, hah, ih]

theorem Table.get_eq_none_iff (t : Table) (host : String) :
    Table.get t host = none ↔ host ∉ t.map Prod.fst := by
  induction t with
  | nil => simp [Table.get]
  | cons e t ih =>
    obtain ⟨a, b⟩ := e
    by_cases hah : a = host
    · simp [Table.get, hah]
    · have : ¬ host = a := fun h => hah h.symm
      simp [Table.get, hah, ih, this]

theorem Table.keys_set (t : Table) (k : String) (v : Routes) :
    (Table.set t k v).map Prod.fst =
      if (Table.get t k).isSome then t.map Prod.fst else t.map Prod.fst ++ [k] := by
  induction t with
  | nil => simp [Table.get, Table.set]
  | cons e t ih =>
    obtain ⟨a, b⟩ := e
    by_cases hak : a = k
    · simp [Table.get, Table.set, hak]
    · simp only [Table.get, Table.set, hak, if_false, List.map_cons, ih]
      split <;> simp

theorem Table.nodup_set (t : Table) (k : String) (v : Routes)
    (h : (t.map Prod.fst).Nodup) : ((Table.set t k v).map Prod.fst).Nodup := by
  rw [Table.keys_set]
  cases hg : Table.get t k with
  | some r => simpa using h
  | none =>
    have hk := (Table.get_eq_none_iff t k).1 hg
    simp only [Option.isSome_none, Bool.false_eq_true, if_false]
    rw [List.nodup_append]
    refine ⟨h, List.nodup_singleton k, ?_⟩
    intro a ha hb
    rw [List.mem_singleton] at hb
    subst hb
    exact hk ha

theorem Table.get_of_mem (t : Table) (k : String) (v : Routes)
    (hn : (t.map Prod.fst).Nodup) (hm : (k, v) ∈ t) : Table.get t k = some v := by
  induction t with
  | nil => simp at hm
  | cons e t ih =>
    obtain ⟨a, b⟩ := e
    rw [List.map_cons, List.nodup_cons] at hn
    rcases List.mem_cons.1 hm with h | h
    · cases h
      simp [Table.get]
    · have hne : a ≠ k := by
        intro hak
        subst hak
        exact hn.1 (List.mem_map.2 ⟨(a, v), h, rfl⟩)
      simp [Table.get, hne, ih hn.2 h]

theorem Table.mem_of_get (t : Table) (k : String) (v : Routes)
    (hg : Table.get t k = some v) : (k, v) ∈ t := by
  induction t with
  | nil => simp [Table.get] at hg
  | cons e t ih =>
    obtain ⟨a, b⟩ := e
    by_cases hak : a = k
    · subst hak
      simp [Table.get] at hg
      simp [hg]
    · simp only [Table.get, hak, if_false] at hg
      exact List.mem_cons_of_mem _ (ih hg)

/-! ## Facts about the vocabulary of the correlator -/

theorem consumed_zero (stream : List String) : consumed 0 stream = [] := by
  simp [consumed]

theorem consumed_nil (n : Nat) : consumed n [] = [] := by
  simp [consumed]

theorem consumed_cons (n : Nat) (ip : String) (stream : List String) :
    consumed (n + 1) (ip :: stream) =
      if ip = RouteEnd then [] else ip :: consumed n stream := by
  by_cases h : ip = RouteEnd <;> simp [consumed, List.takeWhile_cons, h]

theorem consumed_subset (n : Nat) (stream : List String) :
    ∀ ip ∈ consumed n stream, ip ∈ stream := by
  intro ip h
  exact List.mem_of_mem_take ((List.takeWhile_sublist _).subset h)

theorem latestHop_nil (lookupAddr : Nat → String → Except Error (List String)) (first : Nat)
    (host : String) : latestHop lookupAddr first [] host = none := by
  simp [latestHop]

theorem latestHop_cons (lookupAddr : Nat → String → Except Error (List String)) (first : Nat)
    (ip : String) (recs : List String) (host : String) :
    latestHop lookupAddr first (ip :: recs) host =
      (latestHop lookupAddr (first + 1) recs host).or
        (if resolvesTo lookupAddr host (first, ip) then some ip else none) := by
  unfold latestHop
  rw [List.enumFrom_cons, List.reverse_cons, List.find?_append]
  cases List.find? (resolvesTo lookupAddr host) (List.enumFrom (first + 1) recs).reverse with
  | some p => simp
  | none =>
    by_cases h : resolvesTo lookupAddr host (first, ip) = true <;> simp [List.find?_cons, h]

theorem latestHop_mem (lookupAddr : Nat → String → Except Error (List String)) (first : Nat)
    (recs : List String) (host ip : String)
    (h : latestHop lookupAddr first recs host = some ip) : ip ∈ recs := by
  induction recs generalizing first with
  | nil => simp [latestHop_nil] at h
  | cons a recs ih =>
    rw [latestHop_cons] at h
    cases hl : latestHop lookupAddr (first + 1) recs host with
    | some x =>
      rw [hl] at h
      simp only [Option.or_some] at h
      cases h
      exact List.mem_cons_of_mem _ (ih _ hl)
    | none =>
      rw [hl] at h
      simp only [Option.none_or] at h
      split at h
      · cases h
        exact List.mem_cons_self _ _
      · cases h

theorem sharedMatches_nil (lookupAddr : Nat → String → Except Error (List String))
    (known : String → Bool) (first : Nat) : sharedMatches lookupAddr known first [] = [] := by
  simp [sharedMatches]

theorem sharedMatches_cons (lookupAddr : Nat → String → Except Error (List String))
    (known : String → Bool) (first : Nat) (ip : String) (recs : List String) :
    sharedMatches lookupAddr known first (ip :: recs) =
      (if ip = RouteUnknown then []
       else
         match lookupAddr first ip with
         | .ok hosts => hosts.filter known
         | .error _ => []) ++ sharedMatches lookupAddr known (first + 1) recs := by
  simp [sharedMatches, List.enumFrom_cons]

/-- A hostname is among the matches exactly when it is known and the latest
hop that resolves to it exists. -/
theorem mem_sharedMatches_iff (lookupAddr : Nat → String → Except Error (List String))
    (known : String → Bool) (first : Nat) (recs : List String) (host : String) :
    host ∈ sharedMatches lookupAddr known first recs ↔
      known host = true ∧ (latestHop lookupAddr first recs host).isSome = true := by
  induction recs generalizing first with
  | nil => simp [sharedMatches_nil, latestHop_nil]
  | cons ip recs ih =>
    rw [sharedMatches_cons, latestHop_cons, List.mem_append, ih]
    have hhead : host ∈ (if ip = RouteUnknown then []
         else
           match lookupAddr first ip with
           | .ok hosts => hosts.filter known
           | .error _ => []) ↔
        known host = true ∧ resolvesTo lookupAddr host (first, ip) = true := by
      unfold resolvesTo
      by_cases hu : ip = RouteUnknown
      · simp [hu]
      · cases hl : lookupAddr first ip with
        | ok hosts => simp [hu, hl, List.mem_filter, and_comm]
        | error e => simp [hu, hl]
    rw [hhead]
    cases hl : latestHop lookupAddr (first + 1) recs host with
    | some x => simp; tauto
    | none =>
      by_cases hr : resolvesTo lookupAddr host (first, ip) = true <;> simp [hr]

/-! ## Facts about the IPv4 drain loop -/

theorem hostLoop4_get (ip : String) (hosts : List String) (hostname : String) (t : Table)
    (host : String) :
    Table.get (hostLoop4 ip hosts hostname t).2 host =
      if host ∈ hosts then some ⟨ip, ""⟩ else Table.get t host := by
  induction hosts generalizing hostname t with
  | nil => simp [hostLoop4]
  | cons h rest ih =>
    rw [hostLoop4, ih, Table.get_set]
    by_cases h1 : host ∈ rest
    · simp [h1]
    · by_cases h2 : h = host
      · simp [h2]
      · have : ¬ host = h := fun e => h2 e.symm
        simp [h1, h2, this]

theorem hostLoop4_nodup (ip : String) (hosts : List String) (hostname : String) (t : Table)
    (h : (t.map Prod.fst).Nodup) : ((hostLoop4 ip hosts hostname t).2.map Prod.fst).Nodup := by
  induction hosts generalizing hostname t with
  | nil => simpa [hostLoop4] using h
  | cons a rest ih =>
    rw [hostLoop4]
    exact ih _ _ (Table.nodup_set t a _ h)

theorem drain4_nodup (lookupAddr : Nat → String → Except Error (List String))
    (hs : List Nat) (r4 : List String) (st : MainState)
    (h : (st.routes.map Prod.fst).Nodup) :
    ((drain4 lookupAddr hs r4 st).routes.map Prod.fst).Nodup := by
  induction hs generalizing r4 st with
  | nil => simpa [drain4] using h
  | cons hops rest ih =>
    cases r4 with
    | nil => simpa [drain4] using h
    | cons ip r4 =>
      rw [drain4]
      split
      · exact h
      · split
        · exact ih _ _ h
        · split
          · exact ih _ _ h
          · exact ih _ _ (hostLoop4_nodup _ _ _ _ h)

theorem drain4_shared (lookupAddr : Nat → String → Except Error (List String))
    (hs : List Nat) (r4 : List String) (st : MainState) :
    (drain4 lookupAddr hs r4 st).shared = st.shared := by
  induction hs generalizing r4 st with
  | nil => simp [drain4]
  | cons hops rest ih =>
    cases r4 with
    | nil => simp [drain4]
    | cons ip r4 =>
      rw [drain4]
      split
      · rfl
      · split
        · rw [ih]
        · split <;> rw [ih]

/-- Table after the IPv4 loop, entry by entry: the latest consumed hop whose
lookup returned the hostname decides, otherwise the entry is as before. -/
theorem drain4_get (lookupAddr : Nat → String → Except Error (List String))
    (n first : Nat) (r4 : List String) (st : MainState) (host : String) :
    Table.get (drain4 lookupAddr (List.range' first n) r4 st).routes host =
      ((latestHop lookupAddr first (consumed n r4) host).map (fun ip => Routes.mk ip "")).or
        (Table.get st.routes host) := by
  induction n generalizing first r4 st with
  | zero => simp [drain4, consumed_zero, latestHop_nil]
  | succ n ih =>
    rw [List.range'_succ]
    cases r4 with
    | nil => simp [drain4, consumed_nil, latestHop_nil]
    | cons ip r4 =>
      rw [drain4, consumed_cons]
      by_cases hend : ip = RouteEnd
      · simp [hend, latestHop_nil]
      · simp only [hend, if_false]
        rw [latestHop_cons]
        by_cases hu : ip = RouteUnknown
        · simp only [hu, if_true]
          rw [ih]
          simp [resolvesTo]
        · simp only [hu, if_false]
          cases hl : lookupAddr first ip with
          | error e =>
            simp only []
            rw [ih]
            simp [resolvesTo, hl]
          | ok hosts =>
            simp only []
            rw [ih]
            simp only [hostLoop4_get]
            cases latestHop lookupAddr (first + 1) (consumed n r4) host with
            | some x => simp
            | none =>
              by_cases hm : host ∈ hosts <;> simp [resolvesTo, hl, hu, hm]

/-- C9 (counterexample): a lookup that returns two names for the only
responding hop leaves an entry for the second name as well. -/
theorem drain4_second_hostname_gets_entry :
    twoNameLookup 1 "10.0.0.1" = .ok ["a.example", "b.example"] ∧
    Table.get (drain4 twoNameLookup (List.range' 1 64) ["10.0.0.1", "END"]
      ⟨[], 0, ["v4: 10.0.0.9"], false⟩).routes "b.example" = some ⟨"10.0.0.1", ""⟩ :=
  ⟨rfl, by decide⟩

/-- C9 (amended): after the IPv4 loop, started on the empty table, the entry
of a hostname is the address of the latest consumed hop whose reverse lookup
returned that hostname at any position, with an empty IPv6 address; a
hostname has an entry exactly when some consumed hop that is not `"*"` had a
successful lookup naming it, and no hostname has two entries. -/
theorem drain4_table (lookupAddr : Nat → String → Except Error (List String))
    (maxHops : Nat) (r4 : List String) (out : List String) (host : String) :
    Table.get (drain4 lookupAddr (List.range' 1 maxHops) r4 ⟨[], 0, out, false⟩).routes host =
      (latestHop lookupAddr 1 (consumed maxHops r4) host).map (fun ip => Routes.mk ip "") ∧
    (Table.get (drain4 lookupAddr (List.range' 1 maxHops) r4 ⟨[], 0, out, false⟩).routes host
        ≠ none ↔
      ∃ p ∈ List.enumFrom 1 (consumed maxHops r4),
        p.2 ≠ RouteUnknown ∧ ∃ hosts, lookupAddr p.1 p.2 = .ok hosts ∧ host ∈ hosts) ∧
    ((drain4 lookupAddr (List.range' 1 maxHops) r4 ⟨[], 0, out, false⟩).routes.map
      Prod.fst).Nodup := by
  have hget := drain4_get lookupAddr maxHops 1 r4 ⟨[], 0, out, false⟩ host
  simp only [Table.get, Option.or_none] at hget
  refine ⟨hget, ?_, drain4_nodup lookupAddr _ r4 _ (by simp)⟩
  rw [hget]
  unfold latestHop
  rw [ne_eq, Option.map_eq_none', Option.map_eq_none', List.find?_eq_none]
  simp only [List.mem_reverse, not_forall, Classical.not_not]
  constructor
  · rintro ⟨p, hp, hr⟩
    refine ⟨p, hp, ?_⟩
    unfold resolvesTo at hr
    simp only [Bool.and_eq_true, decide_eq_true_eq] at hr
    refine ⟨hr.1, ?_⟩
    cases hl : lookupAddr p.1 p.2 with
    | ok hosts =>
      rw [hl] at hr
      exact ⟨hosts, rfl, by simpa using hr.2⟩
    | error e =>
      rw [hl] at hr
      simp at hr
  · rintro ⟨p, hp, hu, hosts, hl, hm⟩
    refine ⟨p, hp, ?_⟩
    unfold resolvesTo
    simp [hu, hl, hm]

/-! ## Facts about the IPv6 drain loop -/

theorem hostLoop6_get (ip : String) (hosts : List String) (hostname : String) (t : Table)
    (shared : Nat) (host : String) :
    Table.get (hostLoop6 ip hosts hostname t shared).2.1 host =
      (Table.get t host).map (fun r0 => if host ∈ hosts then Routes.mk r0.ipv4 ip else r0) := by
  induction hosts generalizing hostname t shared with
  | nil => simp [hostLoop6]
  | cons h rest ih =>
    rw [hostLoop6]
    cases hg : Table.get t h with
    | none =>
      simp only []
      rw [ih]
      by_cases hh : host = h
      · subst hh
        simp [hg]
      · simp [hh]
    | some route =>
      simp only []
      rw [ih, Table.get_set]
      by_cases hh : h = host
      · subst hh
        simp [hg]
      · have : ¬ host = h := fun e => hh e.symm
        simp [hh, this]

theorem hostLoop6_known (ip : String) (hosts : List String) (hostname : String) (t : Table)
    (shared : Nat) :
    (fun h => (Table.get (hostLoop6 ip hosts hostname t shared).2.1 h).isSome) =
      (fun h => (Table.get t h).isSome) := by
  funext h
  rw [hostLoop6_get]
  simp

theorem hostLoop6_shared (ip : String) (hosts : List String) (hostname : String) (t : Table)
    (shared : Nat) :
    (hostLoop6 ip hosts hostname t shared).2.2 =
      shared + (hosts.filter (fun h => (Table.get t h).isSome)).length := by
  induction hosts generalizing hostname t shared with
  | nil => simp [hostLoop6]
  | cons h rest ih =>
    rw [hostLoop6]
    cases hg : Table.get t h with
    | none =>
      simp only []
      rw [ih]
      simp [List.filter_cons, hg]
    | some route =>
      simp only []
      rw [ih]
      have hk : (fun x => (Table.get (Table.set t h { route with ipv6 := ip }) x).isSome) =
          (fun x => (Table.get t x).isSome) := by
        funext x
        rw [Table.get_set]
        by_cases hx : h = x
        · subst hx
          simp [hg]
        · simp [hx]
      rw [hk]
      simp [List.filter_cons, hg]
      omega

theorem hostLoop6_keys (ip : String) (hosts : List String) (hostname : String) (t : Table)
    (shared : Nat) :
    (hostLoop6 ip hosts hostname t shared).2.1.map Prod.fst = t.map Prod.fst := by
  induction hosts generalizing hostname t shared with
  | nil => simp [hostLoop6]
  | cons h rest ih =>
    rw [hostLoop6]
    cases hg : Table.get t h with
    | none => simp only []; rw [ih]
    | some route =>
      simp only []
      rw [ih, Table.keys_set, hg]
      simp

theorem drain6_keys (lookupAddr : Nat → String → Except Error (List String))
    (hs : List Nat) (r6 : List String) (st : MainState) :
    (drain6 lookupAddr hs r6 st).routes.map Prod.fst = st.routes.map Prod.fst := by
  induction hs generalizing r6 st with
  | nil => simp [drain6]
  | cons hops rest ih =>
    cases r6 with
    | nil => simp [drain6]
    | cons ip r6 =>
      rw [drain6]
      split
      · rfl
      · split
        · rw [ih]
        · split
          · rw [ih]
          · rw [ih]
            exact hostLoop6_keys _ _ _ _ _

/-- Table after the IPv6 loop, entry by entry: an existing entry keeps its
IPv4 address and takes as IPv6 address that of the latest consumed hop whose
lookup returned the hostname, if there is one; no entry appears. -/
theorem drain6_get (lookupAddr : Nat → String → Except Error (List String))
    (n first : Nat) (r6 : List String) (st : MainState) (host : String) :
    Table.get (drain6 lookupAddr (List.range' first n) r6 st).routes host =
      (Table.get st.routes host).map (fun r0 =>
        Routes.mk r0.ipv4 ((latestHop lookupAddr first (consumed n r6) host).getD r0.ipv6)) := by
  induction n generalizing first r6 st with
  | zero => simp [drain6, consumed_zero, latestHop_nil]
  | succ n ih =>
    rw [List.range'_succ]
    cases r6 with
    | nil => simp [drain6, consumed_nil, latestHop_nil]
    | cons ip r6 =>
      rw [drain6, consumed_cons]
      by_cases hend : ip = RouteEnd
      · simp [hend, latestHop_nil]
      · simp only [hend, if_false]
        rw [latestHop_cons]
        by_cases hu : ip = RouteUnknown
        · simp only [hu, if_true]
          rw [ih]
          simp [resolvesTo]
        · simp only [hu, if_false]
          cases hl : lookupAddr first ip with
          | error e =>
            simp only []
            rw [ih]
            simp [resolvesTo, hl]
          | ok hosts =>
            simp only []
            rw [ih]
            simp only [hostLoop6_get]
            cases Table.get st.routes host with
            | none => simp
            | some r0 =>
              cases latestHop lookupAddr (first + 1) (consumed n r6) host with
              | some x => by_cases hm : host ∈ hosts <;> simp [hm]
              | none =>
                by_cases hm : host ∈ hosts <;> simp [resolvesTo, hl, hu, hm]

/-- The counter after the IPv6 loop: one more for every match. -/
theorem drain6_shared (lookupAddr : Nat → String → Except Error (List String))
    (n first : Nat) (r6 : List String) (st : MainState) :
    (drain6 lookupAddr (List.range' first n) r6 st).shared =
      st.shared + (sharedMatches lookupAddr (fun h => (Table.get st.routes h).isSome) first
        (consumed n r6)).length := by
  induction n generalizing first r6 st with
  | zero => simp [drain6, consumed_zero, sharedMatches_nil]
  | succ n ih =>
    rw [List.range'_succ]
    cases r6 with
    | nil => simp [drain6, consumed_nil, sharedMatches_nil]
    | cons ip r6 =>
      rw [drain6, consumed_cons]
      by_cases hend : ip = RouteEnd
      · simp [hend, sharedMatches_nil]
      · simp only [hend, if_false]
        rw [sharedMatches_cons]
        by_cases hu : ip = RouteUnknown
        · simp only [hu, if_true]
          rw [ih]
          simp
        · simp only [hu, if_false]
          cases hl : lookupAddr first ip with
          | error e =>
            simp only []
            rw [ih]
            simp
          | ok hosts =>
            simp only []
            rw [ih]
            simp only [hostLoop6_known, hostLoop6_shared, List.length_append]
            omega

/-- C8: whatever table the IPv6 loop starts on, it leaves the same hostnames
in the same order, every entry keeps its IPv4 address, a hostname without an
entry stays without one, and an entry either is unchanged or has as IPv6
address one of the consumed records of the IPv6 stream. -/
theorem drain6_frame (lookupAddr : Nat → String → Except Error (List String))
    (maxHops : Nat) (r6 : List String) (st : MainState) :
    (drain6 lookupAddr (List.range' 1 maxHops) r6 st).routes.map Prod.fst =
      st.routes.map Prod.fst ∧
    (∀ host, (Table.get (drain6 lookupAddr (List.range' 1 maxHops) r6 st).routes host).map
        Routes.ipv4 = (Table.get st.routes host).map Routes.ipv4) ∧
    (∀ host, Table.get st.routes host = none →
      Table.get (drain6 lookupAddr (List.range' 1 maxHops) r6 st).routes host = none) ∧
    (∀ host r, Table.get (drain6 lookupAddr (List.range' 1 maxHops) r6 st).routes host = some r →
      ∃ r0, Table.get st.routes host = some r0 ∧ r.ipv4 = r0.ipv4 ∧
        (r = r0 ∨ r.ipv6 ∈ consumed maxHops r6)) := by
  refine ⟨drain6_keys _ _ _ _, ?_, ?_, ?_⟩
  · intro host
    rw [drain6_get]
    cases Table.get st.routes host <;> simp
  · intro host h
    rw [drain6_get, h]
    rfl
  · intro host r h
    rw [drain6_get] at h
    cases hg : Table.get st.routes host with
    | none => rw [hg] at h; simp at h
    | some r0 =>
      rw [hg] at h
      simp only [Option.map_some', Option.some.injEq] at h
      subst h
      refine ⟨r0, rfl, rfl, ?_⟩
      cases hl : latestHop lookupAddr 1 (consumed maxHops r6) host with
      | none => left; simp
      | some x =>
        right
        simpa using latestHop_mem lookupAddr 1 _ host x hl

/-! ## Facts about the report -/

/-- C7 (counterexample): one router seen on the IPv4 path answers two hops of
the IPv6 path; the counter ends at 2 while the table has one complete entry. -/
theorem mainCorrelate_shared_exceeds_complete_entries :
    (mainCorrelate coreLookup coreLookup 64 "10.0.0.9" "2001:db8::9"
      ["10.0.0.1", "10.0.0.9", "END"]
      ["2001:db8::1", "2001:db8::2", "2001:db8::9", "END"]).shared = 2 ∧
    (completeEntries (mainCorrelate coreLookup coreLookup 64 "10.0.0.9" "2001:db8::9"
      ["10.0.0.1", "10.0.0.9", "END"]
      ["2001:db8::1", "2001:db8::2", "2001:db8::9", "END"]).routes).length = 1 ∧
    (mainCorrelate coreLookup coreLookup 64 "10.0.0.9" "2001:db8::9"
      ["10.0.0.1", "10.0.0.9", "END"]
      ["2001:db8::1", "2001:db8::2", "2001:db8::9", "END"]).blocked = false := by
  decide

/-- The state in which `main` writes its report, when it gets there. -/
theorem mainCorrelate_unblocked (lookup4 lookup6 : Nat → String → Except Error (List String))
    (maxHops : Nat) (dst4 dst6 : String) (r4 r6 : List String)
    (hb : (mainCorrelate lookup4 lookup6 maxHops dst4 dst6 r4 r6).blocked = false) :
    ∃ s1 s2 : MainState,
      s1 = drain4 lookup4 (List.range' 1 maxHops) r4 ⟨[], 0, ["v4: " ++ dst4], false⟩ ∧
      s2 = drain6 lookup6 (List.range' 1 maxHops) r6
        { s1 with out := s1.out ++ ["", "v6: " ++ dst6] } ∧
      mainCorrelate lookup4 lookup6 maxHops dst4 dst6 r4 r6 =
        { s2 with out := s2.out ++ ["", "xtr: " ++ toString s2.shared] ++
            (if s2.shared > 0 then (completeEntries s2.routes).map entryLine else []) } := by
  refine ⟨_, _, rfl, rfl, ?_⟩
  unfold mainCorrelate at hb ⊢
  simp only [] at hb ⊢
  split
  · rename_i h1
    rw [if_pos h1] at hb
    rw [h1] at hb
    cases hb
  · rename_i h1
    rw [if_neg h1] at hb
    split
    · rename_i h2
      rw [if_pos h2] at hb
      rw [h2] at hb
      cases hb
    · rfl

/-- C7 (amended): when `main` reaches its report, the counter it prints is
the number of matches made while the IPv6 stream was drained, one for every
occurrence of a hostname in the lookup result of a consumed IPv6 hop that a
consumed IPv4 hop had resolved to as well; it is never below the number of
complete entries, equals it when no hostname is matched twice and no record
is the empty string, and the entries printed after it are exactly the
complete ones. -/
theorem mainCorrelate_shared_count (lookup4 lookup6 : Nat → String → Except Error (List String))
    (maxHops : Nat) (dst4 dst6 : String) (r4 r6 : List String)
    (hb : (mainCorrelate lookup4 lookup6 maxHops dst4 dst6 r4 r6).blocked = false) :
    (mainCorrelate lookup4 lookup6 maxHops dst4 dst6 r4 r6).shared =
      (sharedMatches lookup6
        (fun h => (latestHop lookup4 1 (consumed maxHops r4) h).isSome) 1
        (consumed maxHops r6)).length ∧
    (completeEntries (mainCorrelate lookup4 lookup6 maxHops dst4 dst6 r4 r6).routes).length ≤
      (mainCorrelate lookup4 lookup6 maxHops dst4 dst6 r4 r6).shared ∧
    ((sharedMatches lookup6
        (fun h => (latestHop lookup4 1 (consumed maxHops r4) h).isSome) 1
        (consumed maxHops r6)).Nodup →
      (∀ ip ∈ consumed maxHops r4, ip ≠ "") → (∀ ip ∈ consumed maxHops r6, ip ≠ "") →
      (completeEntries (mainCorrelate lookup4 lookup6 maxHops dst4 dst6 r4 r6).routes).length =
        (mainCorrelate lookup4 lookup6 maxHops dst4 dst6 r4 r6).shared) ∧
    (∃ pre, (mainCorrelate lookup4 lookup6 maxHops dst4 dst6 r4 r6).out =
      pre ++ ["xtr: " ++ toString (mainCorrelate lookup4 lookup6 maxHops dst4 dst6 r4 r6).shared]
        ++ (completeEntries
          (mainCorrelate lookup4 lookup6 maxHops dst4 dst6 r4 r6).routes).map entryLine) := by
  obtain ⟨s1, s2, hs1, hs2, hmain⟩ :=
    mainCorrelate_unblocked lookup4 lookup6 maxHops dst4 dst6 r4 r6 hb
  -- the table after the IPv4 loop
  have hget1 : ∀ host, Table.get s1.routes host =
      (latestHop lookup4 1 (consumed maxHops r4) host).map (fun ip => Routes.mk ip "") := by
    intro host
    rw [hs1, drain4_get]
    simp [Table.get]
  have hshared1 : s1.shared = 0 := by rw [hs1, drain4_shared]
  have hnodup1 : (s1.routes.map Prod.fst).Nodup := by
    rw [hs1]
    exact drain4_nodup lookup4 _ r4 _ (by simp)
  -- the table and the counter after the IPv6 loop
  have hget2 : ∀ host, Table.get s2.routes host =
      (latestHop lookup4 1 (consumed maxHops r4) host).map (fun ip =>
        Routes.mk ip ((latestHop lookup6 1 (consumed maxHops r6) host).getD "")) := by
    intro host
    rw [hs2, drain6_get]
    simp only []
    rw [hget1]
    cases latestHop lookup4 1 (consumed maxHops r4) host <;> simp
  have hknown : (fun h => (Table.get s1.routes h).isSome) =
      (fun h => (latestHop lookup4 1 (consumed maxHops r4) h).isSome) := by
    funext h
    rw [hget1]
    simp
  have hshared2 : s2.shared =
      (sharedMatches lookup6 (fun h => (latestHop lookup4 1 (consumed maxHops r4) h).isSome) 1
        (consumed maxHops r6)).length := by
    rw [hs2, drain6_shared]
    simp only []
    rw [hknown, hshared1, Nat.zero_add]
  have hnodup2 : (s2.routes.map Prod.fst).Nodup := by
    rw [hs2, drain6_keys]
    exact hnodup1
  have hcnodup : ((completeEntries s2.routes).map Prod.fst).Nodup :=
    hnodup2.sublist ((List.filter_sublist _).map Prod.fst)
  -- every complete entry was matched
  have hsub : ∀ x ∈ (completeEntries s2.routes).map Prod.fst,
      x ∈ sharedMatches lookup6
        (fun h => (latestHop lookup4 1 (consumed maxHops r4) h).isSome) 1
        (consumed maxHops r6) := by
    intro x hx
    obtain ⟨e, he, hex⟩ := List.mem_map.1 hx
    obtain ⟨k, v⟩ := e
    simp only at hex
    subst hex
    have hmem := (List.mem_filter.1 he).1
    have hcomp := (List.mem_filter.1 he).2
    have hg := Table.get_of_mem s2.routes k v hnodup2 hmem
    rw [hget2] at hg
    rw [mem_sharedMatches_iff]
    cases h4 : latestHop lookup4 1 (consumed maxHops r4) k with
    | none => rw [h4] at hg; simp at hg
    | some ip4 =>
      rw [h4] at hg
      simp only [Option.map_some', Option.some.injEq] at hg
      subst hg
      cases h6 : latestHop lookup6 1 (consumed maxHops r6) k with
      | none =>
        rw [h6] at hcomp
        simp [isComplete] at hcomp
      | some ip6 => simp
  have hle : (completeEntries s2.routes).length ≤ s2.shared := by
    rw [hshared2]
    have := (List.Nodup.subperm hcnodup hsub).length_le
    simpa using this
  rw [hmain]
  refine ⟨hshared2, hle, ?_, ?_⟩
  · intro hmn h4ne h6ne
    simp only []
    refine Nat.le_antisymm hle ?_
    rw [hshared2]
    have hsup : ∀ x ∈ sharedMatches lookup6
        (fun h => (latestHop lookup4 1 (consumed maxHops r4) h).isSome) 1
        (consumed maxHops r6), x ∈ (completeEntries s2.routes).map Prod.fst := by
      intro x hx
      rw [mem_sharedMatches_iff] at hx
      obtain ⟨hx4, hx6⟩ := hx
      cases h4 : latestHop lookup4 1 (consumed maxHops r4) x with
      | none => rw [h4] at hx4; simp at hx4
      | some ip4 =>
        cases h6 : latestHop lookup6 1 (consumed maxHops r6) x with
        | none => rw [h6] at hx6; simp at hx6
        | some ip6 =>
          have hg := hget2 x
          rw [h4, h6] at hg
          simp only [Option.map_some', Option.getD_some] at hg
          have hmem := Table.mem_of_get s2.routes x _ hg
          have h4n := h4ne ip4 (latestHop_mem lookup4 1 _ x ip4 h4)
          have h6n := h6ne ip6 (latestHop_mem lookup6 1 _ x ip6 h6)
          refine List.mem_map.2 ⟨(x, ⟨ip4, ip6⟩), ?_, rfl⟩
          exact List.mem_filter.2 ⟨hmem, by simp [isComplete, h4n, h6n]⟩
    have := (List.Nodup.subperm hmn hsup).length_le
    simpa using this
  · refine ⟨s2.out ++ [""], ?_⟩
    simp only []
    by_cases hpos : s2.shared > 0
    · simp [hpos]
    · have h0 : (completeEntries s2.routes).length = 0 := by omega
      have hnil : completeEntries s2.routes = [] := List.length_eq_zero.1 h0
      simp [hpos, hnil]

/-- Witness for C7: one router on both paths, answering one hop of each; the
report is reached, nothing is matched twice, and the counter equals the
number of complete entries. -/
theorem mainCorrelate_shared_count_witness :
    (mainCorrelate coreLookup coreLookup 64 "10.0.0.9" "2001:db8::9"
      ["10.0.0.1", "10.0.0.9", "END"] ["2001:db8::1", "2001:db8::9", "END"]).blocked = false ∧
    (completeEntries (mainCorrelate coreLookup coreLookup 64 "10.0.0.9" "2001:db8::9"
      ["10.0.0.1", "10.0.0.9", "END"] ["2001:db8::1", "2001:db8::9", "END"]).routes).length =
    (mainCorrelate coreLookup coreLookup 64 "10.0.0.9" "2001:db8::9"
      ["10.0.0.1", "10.0.0.9", "END"] ["2001:db8::1", "2001:db8::9", "END"]).shared :=
  ⟨by decide,
   (mainCorrelate_shared_count coreLookup coreLookup 64 "10.0.0.9" "2001:db8::9"
      ["10.0.0.1", "10.0.0.9", "END"] ["2001:db8::1", "2001:db8::9", "END"]
      (by decide)).2.2.1 (by decide) (by decide) (by decide)⟩

end Xtr
